import Mathlib

/-!
Verification development for the runq container-image minimizer
(shrink_containers.py and images.py).

Modelling conventions:
* The program's byte strings (archive entry names, logged paths, file
  contents, shebang interpreter paths) are modeled as Lean strings; the
  byte-level operations used by the code act bytewise and coincide with
  the charwise operations on the modeled strings.
* The scratch shadow tree that shrink_image materializes in a temporary
  directory is modeled as a finite map from component paths to nodes
  (directory, zero-length placeholder file, or symlink).  Paths that
  escape above the tree root land in the enclosing temporary directory
  of the real filesystem; the model treats everything above the root as
  nonexistent, which produces the same skip outcome as the code on every
  in-scope input (such paths are either skipped because they do not
  exist or skipped because relative_to raises the caught ValueError).
* Fallible Python code (uncaught exceptions) is modeled with Except.
* Symbolic-link loop detection of pathlib resolution is modeled with an
  explicit fuel parameter; theorems are stated for arbitrary fuel.
-/

/-! ## Path string utilities (pathlib.PurePosixPath and os.path helpers) -/

/-- Split a character list on a separator character. -/
def splitChar (sep : Char) : List Char → List (List Char)
  | [] => [[]]
  | c :: rest =>
    match splitChar sep rest with
    | [] => [[]]
    | g :: gs => if c = sep then [] :: g :: gs else (c :: g) :: gs

/-- Components of a POSIX path string: split on slashes, dropping empty
components and single dots, keeping dot-dot, exactly as
pathlib.PurePosixPath parses its non-anchor parts. -/
def pathParts (s : String) : List String :=
  ((splitChar '/' s.data).map String.mk).filter (fun c => !(c == "") && !(c == "."))

/-- Join path components with slashes. -/
def joinSlash : List String → String
  | [] => ""
  | [x] => x
  | x :: xs => x ++ "/" ++ joinSlash xs

/-- Bytewise startswith on the modeled strings. -/
def strStarts (p s : String) : Bool := p.data.isPrefixOf s.data

/-- The string of Path("/").joinpath(name): the name rooted at "/",
normalized (empty and dot components dropped, dot-dot kept).  A name
starting with exactly two slashes keeps the special "//" anchor that
PurePosixPath preserves. -/
def absJoin (name : String) : String :=
  let anchor := if strStarts "//" name && !(strStarts "///" name) then "//" else "/"
  match pathParts name with
  | [] => anchor
  | ps => anchor ++ joinSlash ps

/-- Whether Path(p).relative_to("/") succeeds: p must be absolute with
the plain "/" anchor (a "//" anchor makes relative_to raise ValueError). -/
def cleanAbs (p : String) : Bool :=
  strStarts "/" p && !(strStarts "//" p && !(strStarts "///" p))

/-- Lexical normalization of an absolute component list as os.path.normpath
performs it: dot-dot pops the previous component and is dropped at the root. -/
def normLexAbs : List String → List String :=
  List.foldl (fun acc c => if c = ".." then acc.dropLast else acc ++ [c]) []

/-- Length of the longest common prefix of two component lists. -/
def commonLen : List String → List String → Nat
  | a :: as, b :: bs => if a = b then commonLen as bs + 1 else 0
  | _, _ => 0

/-- os.path.relpath(root/target, root/parent), lexically: normalize both,
strip the common prefix, go up with dot-dots, then descend. -/
def relpathParts (target parent : List String) : List String :=
  let t := normLexAbs target
  let p := normLexAbs parent
  let k := commonLen t p
  List.replicate (p.length - k) ".." ++ t.drop k

/-! ## File content helpers (readline and shebang parsing) -/

/-- Characters of the first line, including the terminating newline. -/
def readlineAux : List Char → List Char
  | [] => []
  | c :: rest => if c = '\n' then [c] else c :: readlineAux rest

/-- f.readline() on the modeled content. -/
def readline (content : String) : List Char := readlineAux content.data

/-- Python bytes.split() whitespace set. -/
def isWS (c : Char) : Bool :=
  c = ' ' || c = '\t' || c = '\n' || c = '\r' || c = '\x0b' || c = '\x0c'

/-- Drop leading whitespace. -/
def dropWS : List Char → List Char
  | [] => []
  | c :: rest => if isWS c then dropWS rest else c :: rest

/-- Take the maximal whitespace-free run. -/
def takeTok : List Char → List Char
  | [] => []
  | c :: rest => if isWS c then [] else c :: takeTok rest

/-- bytes.split()[0] when it exists: the first whitespace-separated token. -/
def firstTok (l : List Char) : Option (List Char) :=
  match dropWS l with
  | [] => none
  | c :: rest => some (c :: takeTok rest)

/-- Outcome of inspecting a regular file's first line in the scan loop:
no shebang marker, a marker with no token after it (the code then indexes
an empty list and raises IndexError), or the first token. -/
inductive ShebangScan where
  | noSheb
  | emptySheb
  | tok (t : List Char)
deriving DecidableEq

/-- Parse the first line of a regular file the way the scan loop does. -/
def scanSheb (content : String) : ShebangScan :=
  let line := readline content
  if ['#', '!'].isPrefixOf line then
    match firstTok (line.drop 2) with
    | none => .emptySheb
    | some t => .tok t
  else .noSheb

/-- The declared absolute interpreter of a content string, when its first
line starts with the shebang marker followed by an absolute path token. -/
def shebangInterp (content : String) : Option String :=
  match scanSheb content with
  | .tok t => if t.head? = some '/' then some (String.mk t) else none
  | _ => none

/-! ## Archive model -/

/-- Kind of one tar archive entry.  Regular entries carry their content;
symlink entries carry their raw link target string.  Entry kinds that are
neither directory, symlink nor regular (devices, fifos, hard links) are
collected as other. -/
inductive EntryKind where
  | dir
  | sym (linkname : String)
  | reg (content : String)
  | other
deriving DecidableEq

/-- One archive entry: its raw tar name plus its kind. -/
structure TarEntry where
  name : String
  kind : EntryKind
deriving DecidableEq

def EntryKind.isdir : EntryKind → Bool
  | .dir => true
  | _ => false

def EntryKind.issym : EntryKind → Bool
  | .sym _ => true
  | _ => false

def EntryKind.isreg : EntryKind → Bool
  | .reg _ => true
  | _ => false

/-! ## Shadow tree model -/

/-- A node of the materialized shadow tree: a directory, a zero-length
placeholder file, or a symlink whose stored target is the component list
of the (always relative) target string written by the scan loop. -/
inductive FSNode where
  | dir
  | file
  | link (target : List String)
deriving DecidableEq

/-- The shadow tree: association list from component paths (relative to
the tree root) to nodes; the most recently written binding is found first. -/
def ShadowFS := List (List String × FSNode)

/-- Lookup in the shadow tree. -/
def fsGet : List (List String × FSNode) → List String → Option FSNode
  | [], _ => none
  | (k, v) :: rest, key => if key = k then some v else fsGet rest key

/-- dict lookup on an association list (newest binding first). -/
def lookupStr : List (String × String) → String → Option String
  | [], _ => none
  | (k, v) :: rest, key => if key = k then some v else lookupStr rest key

/-- Write a node (newest binding shadows older ones). -/
def fsSet (fs : List (List String × FSNode)) (k : List String) (v : FSNode) :
    List (List String × FSNode) :=
  (k, v) :: fs

/-- The nonempty prefixes of a component list, shortest first. -/
def prefixesOf : List String → List (List String)
  | [] => []
  | c :: rest => [c] :: (prefixesOf rest).map (c :: ·)

/-- Path.mkdir(exist_ok=True, parents=True): create every missing ancestor
directory of the given parent path. -/
def mkdirParents (fs : List (List String × FSNode)) (parent : List String) :
    List (List String × FSNode) :=
  (prefixesOf parent).foldl
    (fun acc pre =>
      match fsGet acc pre with
      | some _ => acc
      | none => fsSet acc pre .dir)
    fs

/-! ## Pass 1: the archive scan loop of shrink_image -/

/-- The mutable state of the scan loop: the shadow tree, the shebang map
(raw entry name to declared absolute interpreter), and the path set. -/
structure ScanState where
  fs : List (List String × FSNode)
  shebangs : List (String × String)
  pathSet : List String

/-- set.add on the path set, keeping first-insertion order. -/
def addPath (ps : List String) (p : String) : List String :=
  if p ∈ ps then ps else ps ++ [p]

/-- One iteration of the scan loop over archive entries. -/
def scanEntry (st : ScanState) (e : TarEntry) : Except String ScanState :=
  match e.kind with
  | .dir => .ok st
  | .other => .ok st
  | .sym linkname =>
    let comps := pathParts e.name
    let fs1 := mkdirParents st.fs comps.dropLast
    let target :=
      if strStarts "/" linkname then relpathParts (pathParts linkname) comps.dropLast
      else pathParts linkname
    .ok { st with fs := fsSet fs1 comps (.link target) }
  | .reg content =>
    let comps := pathParts e.name
    let fs1 := fsSet (mkdirParents st.fs comps.dropLast) comps .file
    match scanSheb content with
    | .noSheb => .ok { st with fs := fs1 }
    | .emptySheb => .error "IndexError: empty shebang line"
    | .tok t =>
      if t.head? = some '/' then
        let interp := String.mk t
        let sheb1 := (e.name, interp) :: st.shebangs
        let ps1 :=
          if absJoin e.name ∈ st.pathSet then addPath st.pathSet interp else st.pathSet
        .ok { fs := fs1, shebangs := sheb1, pathSet := ps1 }
      else .ok { st with fs := fs1 }

/-- The whole scan loop. -/
def scanEntries (st : ScanState) : List TarEntry → Except String ScanState
  | [] => .ok st
  | e :: rest =>
    match scanEntry st e with
    | .error m => .error m
    | .ok st1 => scanEntries st1 rest

/-- The fixed bootstrap path set of shrink_image. -/
def bootstrapPaths : List String :=
  ["/.dockerenv",
   "/etc/passwd",
   "/lib/ld-musl-x86_64.so.1",
   "/lib64/ld-linux-x86-64.so.2",
   "/lib/x86_64-linux-gnu/ld-2.31.so",
   "/node_modules/mongo-express/public/images/favicon.ico"]

/-- The seed path set: bootstrap paths plus every logged path that starts
with a slash. -/
def seedSet (logged : List String) : List String :=
  logged.foldl (fun acc p => if strStarts "/" p then addPath acc p else acc) bootstrapPaths

/-! ## Pass 2: closure resolution against the shadow tree -/

/-- A position during path resolution: ups counts how many levels the walk
has climbed above the shadow-tree root (the walk is outside the tree when
ups is positive), comps is the canonical component path below that point. -/
structure Pos where
  ups : Nat
  comps : List String
deriving DecidableEq

/-- One dot-dot step: pop the last component, or climb above the root. -/
def posUp : Pos → Pos
  | ⟨ups, []⟩ => ⟨ups + 1, []⟩
  | ⟨ups, comps⟩ => ⟨ups, comps.dropLast⟩

/-- Strict resolution, the semantics behind Path.exists() followed by
Path.resolve() on an existing path: walk the components physically,
follow symlinks, fail on any missing component or on a non-final file
component, and treat everything above the tree root as nonexistent.
The fuel bounds the number of walk steps; exhaustion models the symlink
loop that makes exists() return False. -/
def resolveStrict (fs : List (List String × FSNode)) :
    Nat → Pos → List String → Option Pos
  | _, pos, [] => some pos
  | 0, _, _ :: _ => none
  | Nat.succ f, pos, c :: rest =>
    if c = ".." then resolveStrict fs f (posUp pos) rest
    else if pos.ups ≠ 0 then none
    else
      match fsGet fs (pos.comps ++ [c]) with
      | none => none
      | some .dir => resolveStrict fs f ⟨0, pos.comps ++ [c]⟩ rest
      | some .file => if rest = [] then some ⟨0, pos.comps ++ [c]⟩ else none
      | some (.link t) => resolveStrict fs f pos (t ++ rest)

/-- Non-strict resolution, the semantics of Path.resolve(strict=False) as
used on the interpreter path: missing components and files in the middle
are kept lexically, symlinks are followed.  The fuel bounds the number of
walk steps; exhaustion models the RuntimeError raised on symlink loops. -/
def resolveNS (fs : List (List String × FSNode)) :
    Nat → Pos → List String → Option Pos
  | _, pos, [] => some pos
  | 0, _, _ :: _ => none
  | Nat.succ f, pos, c :: rest =>
    if c = ".." then resolveNS fs f (posUp pos) rest
    else if pos.ups ≠ 0 then resolveNS fs f ⟨pos.ups, pos.comps ++ [c]⟩ rest
    else
      match fsGet fs (pos.comps ++ [c]) with
      | some (.link t) => resolveNS fs f pos (t ++ rest)
      | _ => resolveNS fs f ⟨0, pos.comps ++ [c]⟩ rest

/-- str() of a path relative to the tree root (Path gives a single dot
for the root itself); this is the key used for the shebang-map lookup. -/
def relKey : List String → String
  | [] => "."
  | ps => joinSlash ps

/-- The body of the closure loop for one snapshot element: the list of
paths it adds to the path set, or the uncaught exception it raises.
Skipped anomalies (non-absolute member, nonexistent or dangling path,
already-canonical path, out-of-tree resolved path) contribute nothing.
The two error cases are the uncaught ValueError raised by
relative_to(symlink_tree) when the resolved interpreter leaves the tree
and the uncaught RuntimeError of a symlink loop under resolve(). -/
def pass2one (fs : List (List String × FSNode)) (shebangs : List (String × String))
    (fuel : Nat) (pstr : String) : Except String (List String) :=
  if !cleanAbs pstr then .ok []
  else
    let comps := pathParts pstr
    match resolveStrict fs fuel ⟨0, []⟩ comps with
    | none => .ok []
    | some pos =>
      if pos = ⟨0, comps⟩ then .ok []
      else if pos.ups ≠ 0 then .ok []
      else
        match lookupStr shebangs (relKey pos.comps) with
        | none => .ok ["/" ++ joinSlash pos.comps]
        | some sb =>
          let stripped := String.mk (sb.data.drop 1)
          if strStarts "/" stripped then
            .error "ValueError: interpreter path left the shadow tree"
          else
            match resolveNS fs fuel ⟨0, []⟩ (pathParts stripped) with
            | none => .error "RuntimeError: symlink loop while resolving interpreter"
            | some ipos =>
              if ipos.ups ≠ 0 then
                .error "ValueError: interpreter resolved outside the shadow tree"
              else .ok ["/" ++ joinSlash ipos.comps, "/" ++ joinSlash pos.comps]

/-- The paths one snapshot element contributes on success (empty on error). -/
def contrib (fs : List (List String × FSNode)) (shebangs : List (String × String))
    (fuel : Nat) (pstr : String) : List String :=
  match pass2one fs shebangs fuel pstr with
  | .ok l => l
  | .error _ => []

/-- The closure loop over an explicit snapshot iteration order. -/
def pass2ord (fs : List (List String × FSNode)) (shebangs : List (String × String))
    (fuel : Nat) (acc : List String) : List String → Except String (List String)
  | [] => .ok acc
  | p :: rest =>
    match pass2one fs shebangs fuel p with
    | .error m => .error m
    | .ok adds => pass2ord fs shebangs fuel (adds.foldl addPath acc) rest

/-- The whole resolution of shrink_image (archive scan plus closure pass),
parametrized by the snapshot iteration order used by the closure loop
(Python iterates list(path_set), whose order the set leaves unspecified). -/
def resolvePathsWith (fuel : Nat) (entries : List TarEntry) (logged : List String)
    (iter : List String → List String) : Except String (List String) :=
  match scanEntries (ScanState.mk [] [] (seedSet logged)) entries with
  | .error m => .error m
  | .ok st => pass2ord st.fs st.shebangs fuel st.pathSet (iter st.pathSet)

/-- The resolution with the snapshot iterated in insertion order. -/
def resolvePaths (fuel : Nat) (entries : List TarEntry) (logged : List String) :
    Except String (List String) :=
  resolvePathsWith fuel entries logged id

/-! ## The archive rewrite loop of shrink_image -/

/-- The retention test of the rewrite loop: directories and symlinks are
always kept; any other entry is kept iff its absolute archive path is a
member of the path set. -/
def keepEntry (ps : List String) (e : TarEntry) : Bool :=
  e.kind.isdir || e.kind.issym || decide (absJoin e.name ∈ ps)

/-- The rewrite loop: stream the source archive and copy every retained
entry unchanged (same header metadata, same content) to the destination. -/
def rewriteArchive (entries : List TarEntry) (ps : List String) : List TarEntry :=
  entries.filter (keepEntry ps)

/-- The absolute paths of all regular-file entries of an archive. -/
def allRegPaths (entries : List TarEntry) : List String :=
  entries.filterMap (fun e => if e.kind.isreg then some (absJoin e.name) else none)

/-! ## images.py: the image descriptor model and its JSON round trip -/

/-- The port descriptor (num plus the optional HTTP-mirror flag). -/
structure Port where
  num : Int
  wget : Bool
deriving DecidableEq

/-- The bind-mount descriptor. -/
structure Mount where
  from_path : String
  to_path : String
deriving DecidableEq

/-- The image descriptor, with sidecars owned recursively. -/
inductive Image where
  | mk (name : String) (repo_digest : Option String) (test_ports : List Port)
      (docker_commands : List String) (old_size : Option Int) (new_size : Option Int)
      (envs : List String) (mounts : List Mount) (skip : Bool) (sidecars : List Image)

def Image.name : Image → String
  | .mk n _ _ _ _ _ _ _ _ _ => n

def Image.repo_digest : Image → Option String
  | .mk _ rd _ _ _ _ _ _ _ _ => rd

def Image.test_ports : Image → List Port
  | .mk _ _ tp _ _ _ _ _ _ _ => tp

def Image.docker_commands : Image → List String
  | .mk _ _ _ dc _ _ _ _ _ _ => dc

def Image.old_size : Image → Option Int
  | .mk _ _ _ _ os _ _ _ _ _ => os

def Image.new_size : Image → Option Int
  | .mk _ _ _ _ _ ns _ _ _ _ => ns

def Image.envs : Image → List String
  | .mk _ _ _ _ _ _ envs _ _ _ => envs

def Image.mounts : Image → List Mount
  | .mk _ _ _ _ _ _ _ mounts _ _ => mounts

def Image.skip : Image → Bool
  | .mk _ _ _ _ _ _ _ _ skip _ => skip

def Image.sidecars : Image → List Image
  | .mk _ _ _ _ _ _ _ _ _ scs => scs

/-- A JSON value. -/
inductive JVal where
  | jnull
  | jbool (b : Bool)
  | jnum (n : Int)
  | jstr (s : String)
  | jarr (elems : List JVal)
  | jobj (fields : List (String × JVal))

/-- dict lookup on a JSON object's field list. -/
def jlookup : List (String × JVal) → String → Option JVal
  | [], _ => none
  | (k, v) :: rest, key => if key = k then some v else jlookup rest key

/-- The JSON value of an optional string field (None serializes to null). -/
def encOptStr : Option String → JVal
  | none => .jnull
  | some s => .jstr s

/-- as_json for one port: wget only written when set. -/
def encPort (p : Port) : JVal :=
  .jobj ([("num", .jnum p.num)] ++ if p.wget then [("wget", .jbool p.wget)] else [])

/-- as_json for one mount. -/
def encMount (m : Mount) : JVal :=
  .jobj [("from_path", .jstr m.from_path), ("to_path", .jstr m.to_path)]

/-- Python dict assignment d[k] = v: an existing key keeps its original
position and receives the new value (the last assignment wins); a new key
is appended in insertion order. -/
def dictInsert (kvs : List (String × JVal)) (k : String) (v : JVal) :
    List (String × JVal) :=
  if k ∈ kvs.map Prod.fst then kvs.map (fun kv => if kv.1 = k then (k, v) else kv)
  else kvs ++ [(k, v)]

mutual

/-- Image.as_json: the five always-present fields in source order, then
skip only when true, then old_size and new_size only when present
(docker_commands is never written). -/
def Image.as_json : Image → JVal
  | .mk _ rd tp _ os ns envs mounts skip scs =>
    .jobj
      ([("repo_digest", encOptStr rd),
        ("test_ports", .jarr (tp.map encPort)),
        ("envs", .jarr (envs.map .jstr)),
        ("mounts", .jarr (mounts.map encMount)),
        ("sidecars", .jobj (Image.as_json_sidecars scs []))]
       ++ (if skip then [("skip", .jbool skip)] else [])
       ++ (match os with
           | some n => [("old_size", .jnum n)]
           | none => [])
       ++ (match ns with
           | some n => [("new_size", .jnum n)]
           | none => []))

/-- The sidecars dict built left to right by dict insertion, as the
Python generator expression does: two sidecars sharing a name collapse
into one key whose value is the later sidecar's serialization. -/
def Image.as_json_sidecars : List Image → List (String × JVal) → List (String × JVal)
  | [], acc => acc
  | i :: rest, acc =>
    Image.as_json_sidecars rest (dictInsert acc (Image.name i) (Image.as_json i))

end

/-- Decode a JSON array of strings. -/
def decStrList : List JVal → Option (List String)
  | [] => some []
  | v :: rest =>
    match v with
    | .jstr s => (decStrList rest).map (s :: ·)
    | _ => none

/-- Mount(**p). -/
def decMount1 (v : JVal) : Option Mount :=
  match v with
  | .jobj kvs =>
    match jlookup kvs "from_path", jlookup kvs "to_path" with
    | some (.jstr f), some (.jstr t) => some ⟨f, t⟩
    | _, _ => none
  | _ => none

def decMounts : List JVal → Option (List Mount)
  | [] => some []
  | v :: rest =>
    match decMount1 v with
    | some m => (decMounts rest).map (m :: ·)
    | none => none

/-- Port(**p): wget defaults to False when the key is absent. -/
def decPort1 (v : JVal) : Option Port :=
  match v with
  | .jobj kvs =>
    match jlookup kvs "num" with
    | some (.jnum n) =>
      match jlookup kvs "wget" with
      | none => some ⟨n, false⟩
      | some (.jbool b) => some ⟨n, b⟩
      | some _ => none
    | _ => none
  | _ => none

def decPorts : List JVal → Option (List Port)
  | [] => some []
  | v :: rest =>
    match decPort1 v with
    | some p => (decPorts rest).map (p :: ·)
    | none => none

/-- value.get of an optional integer field. -/
def decOptNum : Option JVal → Option (Option Int)
  | none => some none
  | some .jnull => some none
  | some (.jnum n) => some (some n)
  | some _ => none

/-- value.get("repo_digest"). -/
def decRD : Option JVal → Option (Option String)
  | none => some none
  | some .jnull => some none
  | some (.jstr s) => some (some s)
  | some _ => none

/-- value.get("skip", False). -/
def decSkip : Option JVal → Option Bool
  | none => some false
  | some (.jbool b) => some b
  | some _ => none

/-- value.get of a string-list field with default empty list. -/
def decStrField : Option JVal → Option (List String)
  | none => some []
  | some (.jarr l) => decStrList l
  | some _ => none

def decMountsField : Option JVal → Option (List Mount)
  | none => some []
  | some (.jarr l) => decMounts l
  | some _ => none

def decPortsField : Option JVal → Option (List Port)
  | none => some []
  | some (.jarr l) => decPorts l
  | some _ => none

/-- value.get("sidecars", dict()).items(). -/
def decSidecarsField : Option JVal → Option (List (String × JVal))
  | none => some []
  | some (.jobj kvs) => some kvs
  | some _ => none

mutual

/-- Image.from_json.  The fuel argument makes the recursion through the
sidecar objects structural; any fuel at least Image.fuelNeed of the value
being decoded behaves like the unbounded Python recursion.  Unlike the
Python constructor the model checks each field's JSON shape, which agrees
with the Python behavior on every value produced by Image.as_json. -/
def Image.from_json : Nat → String → JVal → Option Image
  | 0, _, _ => none
  | Nat.succ f, name, v =>
    match v with
    | .jobj kvs =>
      match decSidecarsField (jlookup kvs "sidecars") with
      | none => none
      | some scsFields =>
        match Image.from_json_sidecars f scsFields with
        | none => none
        | some scs =>
          match decRD (jlookup kvs "repo_digest"), decStrField (jlookup kvs "docker_commands"),
              decOptNum (jlookup kvs "old_size"), decOptNum (jlookup kvs "new_size") with
          | some rd, some dc, some os, some ns =>
            match decStrField (jlookup kvs "envs"), decMountsField (jlookup kvs "mounts"),
                decPortsField (jlookup kvs "test_ports"), decSkip (jlookup kvs "skip") with
            | some envs, some mounts, some tp, some skp =>
              some (Image.mk name rd tp dc os ns envs mounts skp scs)
            | _, _, _, _ => none
          | _, _, _, _ => none
    | _ => none

/-- Image.from_json over the sidecars dict items. -/
def Image.from_json_sidecars : Nat → List (String × JVal) → Option (List Image)
  | _, [] => some []
  | 0, _ :: _ => none
  | Nat.succ f, (n, v) :: rest =>
    match Image.from_json f n v with
    | none => none
    | some i =>
      match Image.from_json_sidecars f rest with
      | none => none
      | some is => some (i :: is)

end

mutual

/-- Fuel sufficient for Image.from_json to decode this image's tree. -/
def Image.fuelNeed : Image → Nat
  | .mk _ _ _ _ _ _ _ _ _ scs => Image.fuelNeedList scs + 1

def Image.fuelNeedList : List Image → Nat
  | [] => 0
  | i :: rest => max (Image.fuelNeed i) (Image.fuelNeedList rest) + 1

end

mutual

/-- The image with docker_commands (the only field as_json never writes)
cleared, recursively through the sidecars; all other fields unchanged. -/
def Image.strip_dc : Image → Image
  | .mk n rd tp _ os ns envs mounts skip scs =>
    .mk n rd tp [] os ns envs mounts skip (Image.strip_dc_list scs)

def Image.strip_dc_list : List Image → List Image
  | [] => []
  | i :: rest => Image.strip_dc i :: Image.strip_dc_list rest

end

mutual

/-- No two sidecars of this image share a name, at any nesting level:
the only images whose sidecar lists the name-keyed sidecars dict can
represent without collapsing entries. -/
def Image.sidecarNamesOk : Image → Bool
  | .mk _ _ _ _ _ _ _ _ _ scs => Image.sidecarNamesOkList scs

/-- Pairwise distinct names in the list, every element recursively ok. -/
def Image.sidecarNamesOkList : List Image → Bool
  | [] => true
  | i :: rest =>
    decide (Image.name i ∉ rest.map Image.name) && Image.sidecarNamesOk i &&
      Image.sidecarNamesOkList rest

end

/-! ## run_container_instrumented: sidecar placeholder substitution -/

/-- str.replace character loop: replace every non-overlapping occurrence
of pat, scanning left to right.  The fuel starts at the string length and
bounds the scan (it never runs out when started there). -/
def replaceChars (pat repl : List Char) : Nat → List Char → List Char
  | _, [] => []
  | 0, s => s
  | Nat.succ f, c :: rest =>
    if pat.isPrefixOf (c :: rest) then
      repl ++ replaceChars pat repl f (rest.drop (pat.length - 1))
    else c :: replaceChars pat repl f rest

/-- Python str.replace(pat, repl). -/
def replaceAll (s pat repl : String) : String :=
  String.mk (replaceChars pat.data repl.data s.data.length s.data)

/-- The environment substitution loop of run_container_instrumented, on a
deep copy of the image: for each env entry index the inner loop assigns
env.replace applied to the ORIGINAL entry (the loop variable env, not the
current list cell), so each sidecar's iteration overwrites the previous
one's substitution and only the last sidecar's replacement survives.
The sidecars list pairs each sidecar name with its private IP address. -/
def substEnvs (sidecars : List (String × String)) (envs : List String) : List String :=
  envs.map (fun env =>
    sidecars.foldl (fun _ ns => replaceAll env ("$\x7b" ++ ns.1 ++ "\x7d") ns.2) env)

/-! ## main: pipeline resumability -/

/-- Python truthiness of an optional integer (None and 0 are falsy). -/
def truthyInt : Option Int → Bool
  | none => false
  | some n => decide (n ≠ 0)

/-- main's bypass test: (image.old_size and image.new_size) or image.skip,
with Python truthiness. -/
def imageDone (img : Image) : Bool :=
  (truthyInt img.old_size && truthyInt img.new_size) || img.skip

/-- The images main hands to analyze_image: exactly those not bypassed. -/
def processedImages (images : List Image) : List Image :=
  images.filter (fun i => !imageDone i)

/-! ## Shared lemmas about the path set -/

theorem mem_addPath {ps : List String} {p x : String} :
    x ∈ addPath ps p ↔ x ∈ ps ∨ x = p := by
  unfold addPath
  by_cases h : p ∈ ps
  · simp only [if_pos h]
    constructor
    · exact Or.inl
    · rintro (hx | rfl)
      · exact hx
      · exact h
  · simp [if_neg h]

theorem subset_addPath {ps : List String} {p : String} : ps ⊆ addPath ps p := by
  intro x hx
  exact mem_addPath.mpr (Or.inl hx)

theorem mem_foldl_addPath {x : String} :
    ∀ (l acc : List String), x ∈ l.foldl addPath acc ↔ x ∈ acc ∨ x ∈ l := by
  intro l
  induction l with
  | nil => simp
  | cons p rest ih =>
    intro acc
    rw [List.foldl_cons, ih, mem_addPath]
    simp only [List.mem_cons]
    tauto

/-! ## Claim C1: rewriter retention rule -/

theorem keepEntry_of_dir_or_sym {ps : List String} {e : TarEntry}
    (h : (e.kind.isdir || e.kind.issym) = true) : keepEntry ps e = true := by
  unfold keepEntry
  rcases Bool.or_eq_true_iff.mp h with h1 | h1 <;> simp [h1]

/-- Claim C1: the rewrite loop keeps every directory entry and every
symlink entry of the input archive unchanged, and keeps a regular-file
entry iff its exact absolute archive path is a member of the path set. -/
theorem c1_rewriter_retention (entries : List TarEntry) (ps : List String) :
    (∀ e, e ∈ entries → (e.kind.isdir || e.kind.issym) = true →
      e ∈ rewriteArchive entries ps) ∧
    (∀ e, e.kind.isreg = true →
      (e ∈ rewriteArchive entries ps ↔ e ∈ entries ∧ absJoin e.name ∈ ps)) := by
  constructor
  · intro e he hk
    exact List.mem_filter.mpr ⟨he, keepEntry_of_dir_or_sym hk⟩
  · intro e hreg
    rcases e with ⟨nm, k⟩
    cases k with
    | reg content =>
      unfold rewriteArchive
      rw [List.mem_filter]
      unfold keepEntry
      simp [EntryKind.isdir, EntryKind.issym]
    | dir => simp [EntryKind.isreg] at hreg
    | sym l => simp [EntryKind.isreg] at hreg
    | other => simp [EntryKind.isreg] at hreg

/-- Witness for C1 at a concrete archive: the directory and symlink are
kept, and the regular file is kept exactly when its path is in the set. -/
theorem c1_rewriter_retention_witness :
    (TarEntry.mk "usr" .dir ∈ rewriteArchive
        [⟨"usr", .dir⟩, ⟨"usr/app", .reg "x"⟩, ⟨"lnk", .sym "usr"⟩] ["/usr/app"]) ∧
    (TarEntry.mk "usr/app" (.reg "x") ∈ rewriteArchive
        [⟨"usr", .dir⟩, ⟨"usr/app", .reg "x"⟩, ⟨"lnk", .sym "usr"⟩] ["/usr/app"]) := by
  constructor
  · exact (c1_rewriter_retention
      [⟨"usr", .dir⟩, ⟨"usr/app", .reg "x"⟩, ⟨"lnk", .sym "usr"⟩] ["/usr/app"]).1
      ⟨"usr", .dir⟩ (by decide) (by decide)
  · exact ((c1_rewriter_retention
      [⟨"usr", .dir⟩, ⟨"usr/app", .reg "x"⟩, ⟨"lnk", .sym "usr"⟩] ["/usr/app"]).2
      ⟨"usr/app", .reg "x"⟩ (by decide)).mpr ⟨by decide, by decide⟩

/-! ## Claim C7: rewrite round trip -/

/-- Claim C7: rewriting an archive with the path set of all its
regular-file paths reproduces the regular-file entries exactly (same
entries, same order, same content bytes). -/
theorem c7_roundtrip_rewrite (entries : List TarEntry) :
    (rewriteArchive entries (allRegPaths entries)).filter (fun e => e.kind.isreg) =
      entries.filter (fun e => e.kind.isreg) := by
  unfold rewriteArchive
  rw [List.filter_filter]
  apply List.filter_congr
  intro e he
  cases hreg : e.kind.isreg with
  | false => simp [hreg]
  | true =>
    have hkeep : keepEntry (allRegPaths entries) e = true := by
      unfold keepEntry
      have : absJoin e.name ∈ allRegPaths entries := by
        unfold allRegPaths
        exact List.mem_filterMap.mpr ⟨e, he, by simp [hreg]⟩
      simp [this]
    simp [hreg, hkeep]

/-! ## Lemmas about the scan and closure loops -/

theorem scanEntry_subset {st st1 : ScanState} {e : TarEntry}
    (h : scanEntry st e = .ok st1) : st.pathSet ⊆ st1.pathSet := by
  rcases e with ⟨nm, k⟩
  cases k with
  | dir =>
    simp only [scanEntry, Except.ok.injEq] at h
    subst h
    exact fun x hx => hx
  | other =>
    simp only [scanEntry, Except.ok.injEq] at h
    subst h
    exact fun x hx => hx
  | sym linkname =>
    simp only [scanEntry, Except.ok.injEq] at h
    subst h
    exact fun x hx => hx
  | reg content =>
    simp only [scanEntry] at h
    split at h
    · simp only [Except.ok.injEq] at h
      subst h
      exact fun x hx => hx
    · exact Except.noConfusion h
    · split at h
      · simp only [Except.ok.injEq] at h
        subst h
        split
        · exact subset_addPath
        · exact fun x hx => hx
      · simp only [Except.ok.injEq] at h
        subst h
        exact fun x hx => hx

theorem scanEntries_subset : ∀ (l : List TarEntry) (st st1 : ScanState),
    scanEntries st l = .ok st1 → st.pathSet ⊆ st1.pathSet := by
  intro l
  induction l with
  | nil =>
    intro st st1 h
    simp only [scanEntries, Except.ok.injEq] at h
    subst h
    exact fun x hx => hx
  | cons e rest ih =>
    intro st st1 h
    simp only [scanEntries] at h
    split at h
    · exact Except.noConfusion h
    · rename_i stm hse
      exact (scanEntry_subset hse).trans (ih stm st1 h)

theorem scanEntries_append : ∀ (l1 l2 : List TarEntry) (st : ScanState),
    scanEntries st (l1 ++ l2) =
      match scanEntries st l1 with
      | .error m => .error m
      | .ok st1 => scanEntries st1 l2 := by
  intro l1
  induction l1 with
  | nil => intro l2 st; rfl
  | cons e rest ih =>
    intro l2 st
    simp only [List.cons_append, scanEntries]
    cases scanEntry st e with
    | error m => rfl
    | ok st1 => exact ih l2 st1

theorem pass2ord_ok_mem (fs : List (List String × FSNode))
    (sh : List (String × String)) (fuel : Nat) :
    ∀ (order acc res : List String), pass2ord fs sh fuel acc order = .ok res →
    ∀ x, (x ∈ res ↔ x ∈ acc ∨ ∃ p ∈ order, x ∈ contrib fs sh fuel p) := by
  intro order
  induction order with
  | nil =>
    intro acc res h x
    simp only [pass2ord, Except.ok.injEq] at h
    subst h
    simp
  | cons p rest ih =>
    intro acc res h x
    simp only [pass2ord] at h
    split at h
    · exact Except.noConfusion h
    · rename_i adds heq
      have hc : adds = contrib fs sh fuel p := by
        unfold contrib
        rw [heq]
      rw [(ih _ _ h) x, mem_foldl_addPath, hc]
      simp only [List.mem_cons]
      constructor
      · rintro ((hx | hx) | ⟨q, hq, hxq⟩)
        · exact Or.inl hx
        · exact Or.inr ⟨p, Or.inl rfl, hx⟩
        · exact Or.inr ⟨q, Or.inr hq, hxq⟩
      · rintro (hx | ⟨q, hq | hq, hxq⟩)
        · exact Or.inl (Or.inl hx)
        · subst hq
          exact Or.inl (Or.inr hxq)
        · exact Or.inr ⟨q, hq, hxq⟩

/-! ## Claim C5: the resolved path set is a superset of the seed set -/

/-- Claim C5: the path set only grows during one resolution pass: whenever
the resolution (scan plus closure) succeeds, every seed path (fixed
bootstrap paths plus absolute logged paths) is in the resolved set. -/
theorem c5_pathset_superset (fuel : Nat) (entries : List TarEntry)
    (logged : List String) (res : List String)
    (hok : resolvePaths fuel entries logged = .ok res) :
    ∀ p ∈ seedSet logged, p ∈ res := by
  unfold resolvePaths resolvePathsWith at hok
  split at hok
  · exact Except.noConfusion hok
  · rename_i st hscan
    intro p hp
    have h1 : p ∈ st.pathSet := scanEntries_subset _ _ _ hscan hp
    exact ((pass2ord_ok_mem _ _ _ _ _ _ hok) p).mpr (Or.inl h1)

/-- Witness for C5: on a small archive with one symlink, the resolved set
contains the bootstrap path /etc/passwd and the logged path /a. -/
theorem c5_pathset_superset_witness :
    "/etc/passwd" ∈ seedSet ["/a"] ++ ["/b"] ∧ "/a" ∈ seedSet ["/a"] ++ ["/b"] :=
  ⟨c5_pathset_superset 32 [⟨"a", .sym "/b"⟩, ⟨"b", .reg ""⟩] ["/a"]
      (seedSet ["/a"] ++ ["/b"]) rfl "/etc/passwd" (by decide),
   c5_pathset_superset 32 [⟨"a", .sym "/b"⟩, ⟨"b", .reg ""⟩] ["/a"]
      (seedSet ["/a"] ++ ["/b"]) rfl "/a" (by decide)⟩

/-! ## Claim C4: immediate shebang interpreter pick-up -/

theorem scanEntry_shebang {st : ScanState} {nm content interp : String}
    (hsi : shebangInterp content = some interp)
    (hmem : absJoin nm ∈ st.pathSet) :
    ∃ st1, scanEntry st ⟨nm, .reg content⟩ = .ok st1 ∧ interp ∈ st1.pathSet := by
  unfold shebangInterp at hsi
  split at hsi
  · rename_i t hsc
    split at hsi
    · rename_i hhead
      simp only [Option.some.injEq] at hsi
      subst hsi
      refine ⟨⟨fsSet (mkdirParents st.fs (pathParts nm).dropLast) (pathParts nm) .file,
          (nm, String.mk t) :: st.shebangs,
          addPath st.pathSet (String.mk t)⟩, ?_, mem_addPath.mpr (Or.inr rfl)⟩
      simp [scanEntry, hsc, hhead, hmem]
    · exact Option.noConfusion hsi
  · exact Option.noConfusion hsi

/-- Claim C4: a regular-file entry whose raw absolute path is in the seed
set and whose content declares an absolute shebang interpreter gets that
interpreter added to the resolved path set (whenever resolution succeeds). -/
theorem c4_shebang_pickup (fuel : Nat) (entries : List TarEntry)
    (logged : List String) (nm content interp : String) (res : List String)
    (hmem : TarEntry.mk nm (.reg content) ∈ entries)
    (hsi : shebangInterp content = some interp)
    (hseed : absJoin nm ∈ seedSet logged)
    (hok : resolvePaths fuel entries logged = .ok res) :
    interp ∈ res := by
  unfold resolvePaths resolvePathsWith at hok
  split at hok
  · exact Except.noConfusion hok
  · rename_i st hscan
    obtain ⟨l1, l2, rfl⟩ := List.append_of_mem hmem
    rw [scanEntries_append] at hscan
    split at hscan
    · exact Except.noConfusion hscan
    · rename_i stA hA
      simp only [scanEntries] at hscan
      have hseedA : absJoin nm ∈ stA.pathSet := scanEntries_subset _ _ _ hA hseed
      obtain ⟨stB, hB, hintB⟩ := scanEntry_shebang hsi hseedA
      rw [hB] at hscan
      have hint : interp ∈ st.pathSet := scanEntries_subset _ _ _ hscan hintB
      exact ((pass2ord_ok_mem _ _ _ _ _ _ hok) interp).mpr (Or.inl hint)

/-- Witness for C4: a logged script run.sh declaring interpreter /bin/sh
gets /bin/sh into the resolved set though /bin/sh was never logged. -/
theorem c4_shebang_pickup_witness :
    "/bin/sh" ∈ seedSet ["/run.sh"] ++ ["/bin/sh"] :=
  c4_shebang_pickup 16 [⟨"run.sh", .reg "#!/bin/sh\n"⟩] ["/run.sh"]
    "run.sh" "#!/bin/sh\n" "/bin/sh" (seedSet ["/run.sh"] ++ ["/bin/sh"])
    (by decide) rfl (by decide) rfl

/-! ## Claim C6: resolution determinism -/

/-- Claim C6: resolving the same (archive, logged paths) pair twice yields
identical resolved path sets.  The two runs can differ only in the order
in which Python's set type happens to iterate the snapshot in the closure
loop, modeled by the order arguments; for any two orders the resolved
sets have exactly the same members, so any two runs agree. -/
theorem c6_resolution_deterministic (fuel : Nat) (entries : List TarEntry)
    (logged : List String) (o1 o2 : List String → List String)
    (h1 : ∀ l, List.Perm (o1 l) l) (h2 : ∀ l, List.Perm (o2 l) l)
    (ps1 ps2 : List String)
    (hok1 : resolvePathsWith fuel entries logged o1 = .ok ps1)
    (hok2 : resolvePathsWith fuel entries logged o2 = .ok ps2) :
    ∀ x, x ∈ ps1 ↔ x ∈ ps2 := by
  unfold resolvePathsWith at hok1 hok2
  split at hok1
  · exact Except.noConfusion hok1
  · rename_i st heq
    simp only [heq] at hok2
    intro x
    rw [(pass2ord_ok_mem _ _ _ _ _ _ hok1) x, (pass2ord_ok_mem _ _ _ _ _ _ hok2) x]
    constructor
    · rintro (hx | ⟨p, hp, hxp⟩)
      · exact Or.inl hx
      · exact Or.inr ⟨p, (h2 st.pathSet).mem_iff.mpr ((h1 st.pathSet).mem_iff.mp hp), hxp⟩
    · rintro (hx | ⟨p, hp, hxp⟩)
      · exact Or.inl hx
      · exact Or.inr ⟨p, (h1 st.pathSet).mem_iff.mpr ((h2 st.pathSet).mem_iff.mp hp), hxp⟩

/-- Witness for C6: the same small archive resolved with the snapshot in
insertion order and in reversed order contains the same paths. -/
theorem c6_resolution_deterministic_witness :
    "/b" ∈ seedSet ["/a"] ++ ["/b"] ↔ "/b" ∈ seedSet ["/a"] ++ ["/b"] :=
  c6_resolution_deterministic 32 [⟨"a", .sym "/b"⟩, ⟨"b", .reg ""⟩] ["/a"]
    id List.reverse (fun l => List.Perm.refl l) (fun l => List.reverse_perm l)
    (seedSet ["/a"] ++ ["/b"]) (seedSet ["/a"] ++ ["/b"]) rfl rfl "/b"

/-! ## Claim C2: symlink chain closure -/

/-- The chain archive: /a links to /b, /b links to /c, /c is a regular file. -/
def c2entries : List TarEntry :=
  [⟨"a", .sym "/b"⟩, ⟨"b", .sym "/c"⟩, ⟨"c", .reg ""⟩]

/-- Counterexample to C2 as stated: with only /a logged, the closure pass
resolves /a all the way to /c and adds only that final target; the
intermediate link /b is never added to the path set, so the claim that
resolution adds both /b and /c is false. -/
theorem c2_chain_counterexample :
    (match resolvePaths 32 c2entries ["/a"] with
     | .ok ps => decide ("/b" ∈ ps) && decide ("/c" ∈ ps)
     | .error _ => false) = false := rfl

/-- C2 amended: resolution adds the chain's final target /c to the path
set; the intermediate link /b is not added, but the /b symlink entry still
survives minimization because the rewrite loop retains every symlink
entry unconditionally. -/
theorem c2_chain_amended :
    (match resolvePaths 32 c2entries ["/a"] with
     | .ok ps =>
       decide ("/c" ∈ ps) && !(decide ("/b" ∈ ps)) &&
         decide (TarEntry.mk "b" (.sym "/c") ∈ rewriteArchive c2entries ps)
     | .error _ => false) = true := rfl

/-! ## Claim C3: resolution anomalies and the uncaught interpreter error -/

/-- An archive whose logged symlink /script resolves to a shebang script
whose interpreter path /bin/sh resolves through the symlink /bin to a
target outside the tree root. -/
def c3entries : List TarEntry :=
  [⟨"usr/run", .reg "#!/bin/sh\n"⟩, ⟨"script", .sym "usr/run"⟩,
   ⟨"bin", .sym "../../outside"⟩]

/-- Claim C3 evaluated at its failing input: an out-of-tree resolved
target reached through a shebang interpreter is NOT logged and skipped;
the relative_to call on the resolved interpreter sits outside the
try/except that guards the path's own resolution, so the closure pass
raises an uncaught ValueError and minimization aborts. -/
theorem c3_interp_out_of_tree_raises :
    resolvePaths 32 c3entries ["/script"] =
      .error "ValueError: interpreter resolved outside the shadow tree" := rfl

/-! ## Claim C8: pipeline resumability -/

/-- An image carrying both sizes, one of them zero. -/
def c8img : Image := .mk "zero-size" (some "sha256:d") [] [] (some 0) (some 1) [] [] false []

/-- Counterexample to C8 as stated: this image carries both old_size and
new_size (and skip is false), yet main does not bypass it — the loop
tests Python truthiness, and old_size equal to 0 is falsy, so
analyze_image is invoked for the image. -/
theorem c8_zero_size_counterexample :
    (Image.old_size c8img).isSome = true ∧ (Image.new_size c8img).isSome = true ∧
      Image.skip c8img = false ∧ processedImages [c8img] = [c8img] :=
  ⟨rfl, rfl, rfl, rfl⟩

/-- C8 amended: an image is bypassed iff both sizes are present AND
nonzero, or skip is set; such an image is never handed to analyze_image. -/
theorem c8_skip_amended (images : List Image) (img : Image)
    (h : ((truthyInt (Image.old_size img) && truthyInt (Image.new_size img))
        || Image.skip img) = true) :
    img ∉ processedImages images := by
  intro hmem
  have h2 := (List.mem_filter.mp hmem).2
  have h3 : imageDone img = true := h
  rw [h3] at h2
  simp at h2

/-- Witness for C8 amended: a completed image (both sizes nonzero) is
bypassed by the run loop. -/
theorem c8_skip_amended_witness :
    Image.mk "done" (some "d") [] [] (some 9) (some 4) [] [] false [] ∉
      processedImages [Image.mk "done" (some "d") [] [] (some 9) (some 4) [] [] false []] :=
  c8_skip_amended _ _ rfl

/-! ## Claim C9: sidecar placeholder substitution -/

/-- Claim C9 evaluated at its failing input: with sidecars a (10.0.0.1)
and b (10.0.0.2) started in that order, the inner loop's final iteration
rewrites the entry from the ORIGINAL string, so the placeholder for a is
left unreplaced; with a single sidecar the substitution does happen,
showing the loop's intent. -/
theorem c9_substitution_bug_eval :
    substEnvs [("a", "10.0.0.1"), ("b", "10.0.0.2")] ["URL=$\x7ba\x7d"]
        = ["URL=$\x7ba\x7d"] ∧
      substEnvs [("a", "10.0.0.1")] ["URL=$\x7ba\x7d"] = ["URL=10.0.0.1"] :=
  ⟨rfl, rfl⟩

/-! ## Claim C10: image descriptor JSON round trip -/

theorem decStrList_enc : ∀ l : List String, decStrList (l.map JVal.jstr) = some l := by
  intro l
  induction l with
  | nil => rfl
  | cons s rest ih => simp [decStrList, ih]

theorem decMount1_enc (m : Mount) : decMount1 (encMount m) = some m := rfl

theorem decMounts_enc : ∀ ms : List Mount, decMounts (ms.map encMount) = some ms := by
  intro ms
  induction ms with
  | nil => rfl
  | cons m rest ih => simp [decMounts, decMount1_enc, ih]

theorem decPort1_enc (p : Port) : decPort1 (encPort p) = some p := by
  rcases p with ⟨n, w⟩
  cases w <;> rfl

theorem decPorts_enc : ∀ ps : List Port, decPorts (ps.map encPort) = some ps := by
  intro ps
  induction ps with
  | nil => rfl
  | cons p rest ih => simp [decPorts, decPort1_enc, ih]

theorem decRD_enc (rd : Option String) : decRD (some (encOptStr rd)) = some rd := by
  cases rd <;> rfl

theorem as_json_sidecars_append : ∀ (l : List Image) (acc : List (String × JVal)),
    Image.sidecarNamesOkList l = true →
    (∀ i ∈ l, Image.name i ∉ acc.map Prod.fst) →
    Image.as_json_sidecars l acc =
      acc ++ l.map (fun i => (Image.name i, Image.as_json i)) := by
  intro l
  induction l with
  | nil =>
    intro acc _ _
    simp [Image.as_json_sidecars]
  | cons i rest ih =>
    intro acc hok hdisj
    simp only [Image.sidecarNamesOkList, Bool.and_eq_true, decide_eq_true_eq] at hok
    obtain ⟨⟨hhead, _⟩, hrest⟩ := hok
    have hins : dictInsert acc (Image.name i) (Image.as_json i) =
        acc ++ [(Image.name i, Image.as_json i)] := by
      unfold dictInsert
      rw [if_neg (hdisj i (List.mem_cons_self i rest))]
    have hdisj2 : ∀ j ∈ rest,
        Image.name j ∉ (acc ++ [(Image.name i, Image.as_json i)]).map Prod.fst := by
      intro j hj hmem
      have h1 : Image.name j ∉ acc.map Prod.fst := hdisj j (List.mem_cons_of_mem i hj)
      have h2 : Image.name j ≠ Image.name i := by
        intro he
        have h3 := List.mem_map_of_mem Image.name hj
        rw [he] at h3
        exact hhead h3
      simp only [List.map_append, List.mem_append, List.map_cons, List.map_nil,
        List.mem_singleton] at hmem
      rcases hmem with hc | hc
      · exact h1 hc
      · exact h2 hc
    rw [Image.as_json_sidecars, hins, ih (acc ++ [(Image.name i, Image.as_json i)]) hrest hdisj2]
    simp

theorem from_json_as_json (fuel : Nat) :
    (∀ img : Image, Image.fuelNeed img ≤ fuel → Image.sidecarNamesOk img = true →
      Image.from_json fuel (Image.name img) (Image.as_json img) =
        some (Image.strip_dc img)) ∧
    (∀ scs : List Image, Image.fuelNeedList scs ≤ fuel →
      Image.sidecarNamesOkList scs = true →
      Image.from_json_sidecars fuel
          (scs.map (fun i => (Image.name i, Image.as_json i))) =
        some (Image.strip_dc_list scs)) := by
  induction fuel with
  | zero =>
    constructor
    · intro img h _
      exact absurd h (by cases img; simp [Image.fuelNeed])
    · intro scs h _
      cases scs with
      | nil => rfl
      | cons i rest => exact absurd h (by simp [Image.fuelNeedList])
  | succ f ih =>
    constructor
    · intro img h hok
      rcases img with ⟨n, rd, tp, dc, os, ns, envs, mounts, skip, scs⟩
      have hb : Image.fuelNeedList scs ≤ f := by
        have h1 : Image.fuelNeedList scs + 1 ≤ f + 1 := h
        omega
      have hoklist : Image.sidecarNamesOkList scs = true := hok
      have hplain : Image.as_json_sidecars scs [] =
          scs.map (fun i => (Image.name i, Image.as_json i)) :=
        as_json_sidecars_append scs [] hoklist (by intro j hj; simp)
      have hscs := ih.2 scs hb hoklist
      have hname : Image.name (Image.mk n rd tp dc os ns envs mounts skip scs) = n := rfl
      cases skip <;> rcases os with _ | osn <;> rcases ns with _ | nsn <;>
        simp [Image.from_json, Image.as_json, hname, hplain,
          jlookup, decSidecarsField, hscs, decRD_enc, decStrField, decStrList_enc,
          decOptNum, decSkip, decMountsField, decMounts_enc, decPortsField,
          decPorts_enc, Image.strip_dc]
    · intro scs h hok
      cases scs with
      | nil => rfl
      | cons i rest =>
        simp only [Image.sidecarNamesOkList, Bool.and_eq_true, decide_eq_true_eq] at hok
        obtain ⟨⟨_, hoki⟩, hokrest⟩ := hok
        have hbounds : Image.fuelNeed i ≤ f ∧ Image.fuelNeedList rest ≤ f := by
          have h1 : max (Image.fuelNeed i) (Image.fuelNeedList rest) + 1 ≤ f + 1 := h
          constructor <;> omega
        have hi := ih.1 i hbounds.1 hoki
        have hrest := ih.2 rest hbounds.2 hokrest
        simp [Image.from_json_sidecars, hi, hrest, Image.strip_dc_list]

/-- An image with two sidecars both named db: the first has skip false,
the second has skip true and a repo digest. -/
def c10dup : Image :=
  .mk "web" (some "sha256:abc") [] [] none none [] [] false
    [.mk "db" none [] [] none none [] [] false [],
     .mk "db" (some "sha256:second") [] [] none none [] [] true []]

/-- Counterexample to C10 as stated: the sidecars dict is keyed by name,
so serializing an image with two sidecars named db collapses them into
one key carrying the second sidecar's serialization; deserializing gives
back an image with a single sidecar (the second's fields), not an image
equal to the original on the sidecars field, which kept both. -/
theorem c10_duplicate_counterexample :
    (Image.sidecars (Image.strip_dc c10dup)).map Image.skip = [false, true] ∧
    (match Image.from_json 4 (Image.name c10dup) (Image.as_json c10dup) with
     | some img => (Image.sidecars img).map Image.skip
     | none => []) = [true] :=
  ⟨rfl, rfl⟩

/-- Claim C10 (amended): for every image whose sidecars have pairwise
distinct names at every nesting level — the only sidecar lists the
name-keyed sidecars dict can represent without collapsing entries —
deserializing the serialization reproduces the image on every persisted
field (name, repo_digest, test_ports, envs, mounts, skip, old_size,
new_size, and sidecars recursively), except that docker_commands — which
as_json never writes — always comes back as the empty list;
Image.strip_dc is exactly that transformation.  The fuel bound makes the
decoder's recursion through the sidecar tree structural and is satisfied
by any sufficiently large fuel. -/
theorem c10_image_json_roundtrip (img : Image) (fuel : Nat)
    (h : Image.fuelNeed img ≤ fuel) (hnames : Image.sidecarNamesOk img = true) :
    Image.from_json fuel (Image.name img) (Image.as_json img) =
        some (Image.strip_dc img) ∧
      Image.docker_commands (Image.strip_dc img) = [] := by
  refine ⟨(from_json_as_json fuel).1 img h hnames, ?_⟩
  rcases img with ⟨n, rd, tp, dc, os, ns, envs, mounts, skip, scs⟩
  rfl

/-- A concrete image exercising every field, with two distinct sidecars. -/
def c10wimg : Image :=
  .mk "web" (some "sha256:abc") [⟨80, true⟩, ⟨443, false⟩] ["docker", "network"]
    (some 5000) (some 300) ["A=B"] [⟨"hostdir", "contdir"⟩] false
    [.mk "db" none [] ["pull"] none none [] [] true [],
     .mk "cache" (some "sha256:c") [] [] none none ["X=1"] [] false []]

/-- Witness for C10 on the concrete image. -/
theorem c10_image_json_roundtrip_witness :
    Image.from_json 4 (Image.name c10wimg) (Image.as_json c10wimg) =
        some (Image.strip_dc c10wimg) ∧
      Image.docker_commands (Image.strip_dc c10wimg) = [] :=
  c10_image_json_roundtrip c10wimg 4 (by decide) (by decide)
